import Mathlib

/-!
Verification of the motoro graphics layer against its specification.

Shallow embedding of the host-visible parts of the Rust sources:
`src/vulkan/variables/storage.rs`, `src/vulkan/variables/textures.rs`,
`src/textures/loader.rs`, `src/vulkan/mod.rs`, `src/fonts/raster.rs`
and `src/fonts/loader.rs`.  GPU calls are modelled by their effect on
the host-visible state (and, for the frame-pacing code, by an explicit
event trace); `usize → u32` casts are modelled as `% 2 ^ 32`.
-/

namespace Motoro

/-- Host-visible state of `Storage<T>` (src/vulkan/variables/storage.rs).
`collection` is the host staging array of fixed length `n`, `cursor` the
write cursor, `buffers` the per-frame GPU buffer contents (device memory
is uninitialized at creation; modelled as empty until first flushed). -/
structure Storage (T : Type) where
  buffers : List (List T)
  collection : List T
  cursor : Nat
deriving DecidableEq

namespace Storage

/-- `Storage::create` with element default `d`, `frames` in-flight frames and
capacity `n`: the staging collection is `vec![T::default(); n]`, cursor 0. -/
def create {T : Type} (d : T) (frames n : Nat) : Storage T :=
  { buffers := List.replicate frames []
    collection := List.replicate n d
    cursor := 0 }

/-- Result of `Storage::push` / `Storage::extend`: the returned `u32`,
the state after the call, and whether `error!` was logged. -/
structure PushResult (T : Type) where
  ret : Nat
  state : Storage T
  logged : Bool
deriving DecidableEq

/-- `Storage::push` (storage.rs lines 57-68): reject (log, return 0,
no state change) when `cursor >= collection.len()`, otherwise write at
`cursor`, advance, and return the previous cursor as `u32`. -/
def push {T : Type} (s : Storage T) (value : T) : PushResult T :=
  if s.cursor ≥ s.collection.length then
    ⟨0, s, true⟩
  else
    let collection := s.collection.set s.cursor value
    let cursor := s.cursor + 1
    ⟨(cursor - 1) % 2 ^ 32, { s with collection := collection, cursor := cursor }, false⟩

/-- `Storage::extend` (storage.rs lines 70-82): reject when
`cursor + count >= collection.len()` (note `>=`, not `>`), otherwise copy
`values` to `cursor..cursor+count`, advance, and return the old cursor. -/
def extend {T : Type} (s : Storage T) (values : List T) : PushResult T :=
  let count := values.length
  if s.cursor + count ≥ s.collection.length then
    ⟨0, s, true⟩
  else
    let collection :=
      s.collection.take s.cursor ++ values ++ s.collection.drop (s.cursor + count)
    let cursor := s.cursor + count
    ⟨(cursor - count) % 2 ^ 32, { s with collection := collection, cursor := cursor }, false⟩

/-- `Storage::update_from` (storage.rs lines 96-110): memcpy of `value`
into the GPU buffer of the given frame. -/
def update_from {T : Type} (s : Storage T) (frame : Nat) (value : List T) : Storage T :=
  { s with buffers := s.buffers.set frame value }

/-- `Storage::take_and_update` (storage.rs lines 88-94): flush the whole
staging collection to the frame's GPU buffer, reset the cursor to zero and
return the old cursor. -/
def take_and_update {T : Type} (s : Storage T) (frame : Nat) : Nat × Storage T :=
  let value := s.collection
  let count := s.cursor
  let s' := { s with cursor := 0 }
  (count, s'.update_from frame value)

/-- Iterate `push` over a list of values, collecting each call's
returned index and error flag. -/
def pushAll {T : Type} (s : Storage T) (vs : List T) : List (Nat × Bool) × Storage T :=
  match vs with
  | [] => ([], s)
  | v :: rest =>
    let r := s.push v
    let (rs, s') := pushAll r.state rest
    ((r.ret, r.logged) :: rs, s')

end Storage

end Motoro

namespace Motoro

theorem take_succ_set {T : Type} (col : List T) (c : Nat) (v : T) (h : c < col.length) :
    (col.set c v).take (c + 1) = col.take c ++ [v] := by
  induction col generalizing c with
  | nil => simp at h
  | cons a l ih =>
    cases c with
    | zero => simp
    | succ m =>
      simp only [List.set_cons_succ, List.take_succ_cons, List.cons_append]
      rw [ih m (by simpa using h)]

theorem drop_set_of_gt {T : Type} (col : List T) (c m : Nat) (v : T) (h : c < m) :
    (col.set c v).drop m = col.drop m := by
  induction col generalizing c m with
  | nil => simp
  | cons a l ih =>
    cases c with
    | zero =>
      cases m with
      | zero => omega
      | succ k => simp
    | succ j =>
      cases m with
      | zero => omega
      | succ k =>
        simp only [List.set_cons_succ, List.drop_succ_cons]
        exact ih j k (by omega)

theorem push_success {T : Type} (s : Storage T) (v : T) (h : s.cursor < s.collection.length) :
    s.push v = ⟨s.cursor % 2 ^ 32,
      { s with collection := s.collection.set s.cursor v, cursor := s.cursor + 1 }, false⟩ := by
  simp [Storage.push, Nat.not_le.mpr h]

theorem push_reject {T : Type} (s : Storage T) (v : T) (h : s.collection.length ≤ s.cursor) :
    s.push v = ⟨0, s, true⟩ := by
  simp [Storage.push, h]

theorem pushAll_spec {T : Type} (vs : List T) :
    ∀ s : Storage T, s.cursor + vs.length ≤ s.collection.length →
      s.cursor + vs.length ≤ 2 ^ 32 →
      Storage.pushAll s vs =
        ((List.range' s.cursor vs.length).map (fun i => (i, false)),
          { s with
            collection :=
              s.collection.take s.cursor ++ vs ++ s.collection.drop (s.cursor + vs.length)
            cursor := s.cursor + vs.length }) := by
  induction vs with
  | nil =>
    intro s _ _
    simp [Storage.pushAll, List.take_append_drop]
  | cons v rest ih =>
    intro s hlen hmod
    have hc : s.cursor < s.collection.length := by
      simp only [List.length_cons] at hlen; omega
    have hcm : s.cursor % 2 ^ 32 = s.cursor := by
      apply Nat.mod_eq_of_lt; simp only [List.length_cons] at hmod; omega
    rw [Storage.pushAll, push_success s v hc]
    have hlen' : ((s.collection.set s.cursor v).length) = s.collection.length := by simp
    have ih' := ih { s with collection := s.collection.set s.cursor v, cursor := s.cursor + 1 }
      (by simp only [List.length_cons] at hlen; simp [hlen']; omega)
      (by simp only [List.length_cons] at hmod; simp; omega)
    simp only at ih'
    rw [ih']
    simp only [List.range', hcm, Prod.mk.injEq]
    refine ⟨by simp, ?_⟩
    have ht : (s.collection.set s.cursor v).take (s.cursor + 1) =
        s.collection.take s.cursor ++ [v] := take_succ_set _ _ _ hc
    have hd : (s.collection.set s.cursor v).drop (s.cursor + 1 + rest.length) =
        s.collection.drop (s.cursor + 1 + rest.length) :=
      drop_set_of_gt _ _ _ _ (by omega)
    have he : s.cursor + 1 + rest.length = s.cursor + (rest.length + 1) := by omega
    simp only [Storage.mk.injEq, List.length_cons]
    refine ⟨trivial, ?_, by omega⟩
    rw [ht, hd, he]
    simp [List.append_assoc]

/-- Claim C1: for a `Storage<T>` created with capacity `n` (cursor 0), a
sequence of `n` pushes succeeds, returning indices `0..n-1` in order and
writing each value at its returned index (the staging collection ends up
equal to the pushed list); the `(n+1)`th push is rejected: it logs an
error, returns the sentinel 0 and leaves collection and cursor unchanged.
(The hypothesis `n ≤ 2 ^ 32` reflects the `usize → u32` cast of returned
indices.) -/
theorem storage_push_sequence_spec {T : Type} (d : T) (frames n : Nat) (vs : List T) (v : T)
    (hvs : vs.length = n) (hn : n ≤ 2 ^ 32) :
    (Storage.pushAll (Storage.create d frames n) vs).1 =
      (List.range n).map (fun i => (i, false)) ∧
    (Storage.pushAll (Storage.create d frames n) vs).2.collection = vs ∧
    (Storage.pushAll (Storage.create d frames n) vs).2.cursor = n ∧
    ((Storage.pushAll (Storage.create d frames n) vs).2.push v) =
      ⟨0, (Storage.pushAll (Storage.create d frames n) vs).2, true⟩ := by
  have h := pushAll_spec vs (Storage.create d frames n)
    (by simp [Storage.create, hvs]) (by simpa [Storage.create, hvs] using hn)
  rw [h]
  refine ⟨?_, ?_, ?_, ?_⟩
  · simp [Storage.create, hvs, List.range_eq_range']
  · simp [Storage.create, hvs]
  · simp [Storage.create, hvs]
  · apply push_reject
    simp [Storage.create, hvs]

/-- Concrete instance of C1 at capacity 3. -/
theorem storage_push_sequence_spec_witness :
    (Storage.pushAll (Storage.create (0 : Nat) 2 3) [10, 20, 30]).1 =
      [(0, false), (1, false), (2, false)] ∧
    (Storage.pushAll (Storage.create (0 : Nat) 2 3) [10, 20, 30]).2.collection =
      [10, 20, 30] ∧
    (Storage.pushAll (Storage.create (0 : Nat) 2 3) [10, 20, 30]).2.cursor = 3 ∧
    ((Storage.pushAll (Storage.create (0 : Nat) 2 3) [10, 20, 30]).2.push 40) =
      ⟨0, (Storage.pushAll (Storage.create (0 : Nat) 2 3) [10, 20, 30]).2, true⟩ := by
  have h := storage_push_sequence_spec (0 : Nat) 2 3 [10, 20, 30] 40 (by decide) (by decide)
  simpa using h

/-- Claim C2: `take_and_update` resets the write cursor to zero and returns
the staged-element count (the cursor value accumulated since the previous
reset); the staging collection itself is unchanged (same fixed-size array
reused, never grown), and a push performed immediately afterwards writes at
index 0 and returns 0 again. -/
theorem storage_take_and_update_spec {T : Type} (s : Storage T) (frame : Nat) (v : T)
    (hn : 0 < s.collection.length) :
    (s.take_and_update frame).1 = s.cursor ∧
    (s.take_and_update frame).2.cursor = 0 ∧
    (s.take_and_update frame).2.collection = s.collection ∧
    ((s.take_and_update frame).2.push v).ret = 0 ∧
    ((s.take_and_update frame).2.push v).logged = false ∧
    ((s.take_and_update frame).2.push v).state.collection = s.collection.set 0 v ∧
    ((s.take_and_update frame).2.push v).state.cursor = 1 := by
  refine ⟨rfl, rfl, rfl, ?_, ?_, ?_, ?_⟩ <;>
    simp [Storage.take_and_update, Storage.update_from, Storage.push, Nat.not_le.mpr hn]

/-- Concrete instance of C2. -/
theorem storage_take_and_update_spec_witness :
    ((Storage.create (0 : Nat) 1 2).take_and_update 0).2.cursor = 0 ∧
    (((Storage.create (0 : Nat) 1 2).take_and_update 0).2.push 5).ret = 0 := by
  have h := storage_take_and_update_spec (Storage.create (0 : Nat) 1 2) 0 5 (by decide)
  exact ⟨h.2.1, h.2.2.2.1⟩

/-- Claim C3 (code bug): `Storage::extend` rejects the write that would fill
the buffer to exactly its capacity.  On a fresh `Storage` of capacity 1,
`extend(&[7])` has `cursor + count = 1 ≤ n = 1`, so by the spec it must
succeed; the code's `>=` comparison rejects it, logging "storage limit
exceeded" although the limit is not exceeded, and leaves the state
unchanged. -/
theorem storage_extend_exact_fill_bug :
    (Storage.create (0 : Nat) 1 1).cursor + [7].length ≤
      (Storage.create (0 : Nat) 1 1).collection.length ∧
    (Storage.create (0 : Nat) 1 1).extend [7] = ⟨0, Storage.create (0 : Nat) 1 1, true⟩ := by
  decide

/-- Claim C9: the sentinel index returned on capacity overflow is 0, exactly
the value a successful first push on an empty buffer returns (and the value
a successful `extend` at cursor 0 returns), so the return value alone cannot
distinguish a rejected write from a valid write at index 0. -/
theorem storage_sentinel_ambiguous {T : Type} (s t u : Storage T) (v : T) (vs : List T)
    (hs : s.collection.length ≤ s.cursor)
    (ht0 : t.cursor = 0) (htn : 0 < t.collection.length)
    (hu0 : u.cursor = 0) (hun : vs.length < u.collection.length) :
    (s.push v).ret = 0 ∧ (s.push v).logged = true ∧
    (s.extend vs).ret = 0 ∧ (s.extend vs).logged = true ∧
    (t.push v).ret = 0 ∧ (t.push v).logged = false ∧
    (u.extend vs).ret = 0 ∧ (u.extend vs).logged = false ∧
    (s.push v).ret = (t.push v).ret := by
  refine ⟨?_, ?_, ?_, ?_, ?_, ?_, ?_, ?_, ?_⟩ <;>
    simp [Storage.push, Storage.extend, hs, ht0, Nat.not_le.mpr htn,
      Nat.not_le.mpr hun, hu0, Nat.le_trans hs (Nat.le_add_right _ _)]

/-- Model of `vk::Image` handles and the `Texture` struct
(src/textures/texture.rs): an opaque handle quadruple; equality of the
`image` field is the identity used by the bindless table. -/
structure Texture where
  id : Nat
  image : Nat
  memory : Nat
  view : Nat
deriving DecidableEq

/-- Host-visible state of the bindless texture table `Textures`
(src/vulkan/variables/textures.rs). -/
structure Textures where
  slot : Nat
  binding : Nat
  max_descriptors : Nat
  textures : List Texture
deriving DecidableEq

/-- Rust `Iterator::position`: index of the first element satisfying `p`. -/
def position {T : Type} (p : T → Bool) : List T → Option Nat
  | [] => none
  | a :: l => if p a then some 0 else (position p l).map (· + 1)

namespace Textures

/-- `Textures::create` (textures.rs lines 33-94): empty table with
`max_descriptors = 256`. -/
def create (slot binding : Nat) : Textures :=
  { slot := slot, binding := binding, max_descriptors := 256, textures := [] }

/-- Result of a non-panicking `Textures::store`: the returned slot index,
the state after the call, and whether a descriptor write was issued. -/
structure StoreResult where
  ret : Nat
  state : Textures
  wrote : Bool
deriving DecidableEq

/-- `Textures::store` (textures.rs lines 96-129): linear scan for a record
with the same `image` handle; hit returns its index with no write; miss
panics (`none`) when the table holds `max_descriptors` textures, otherwise
issues one descriptor write at index `len` and appends.  `usize → u32`
casts are `% 2 ^ 32`. -/
def store (t : Textures) (texture : Texture) : Option StoreResult :=
  match position (fun record => record.image == texture.image) t.textures with
  | none =>
    let index := t.textures.length % 2 ^ 32
    if index = t.max_descriptors then none
    else some ⟨index, { t with textures := t.textures ++ [texture] }, true⟩
  | some index => some ⟨index % 2 ^ 32, t, false⟩

/-- Iterate `store` over a list of textures, collecting the returned slot
indices; `none` as soon as one call panics. -/
def storeSeq (t : Textures) : List Texture → Option (List Nat × Textures)
  | [] => some ([], t)
  | tex :: rest =>
    match t.store tex with
    | none => none
    | some r =>
      match storeSeq r.state rest with
      | none => none
      | some (is, t') => some (r.ret :: is, t')

end Textures

theorem position_eq_none_iff {T : Type} (p : T → Bool) (l : List T) :
    position p l = none ↔ ∀ a ∈ l, ¬ p a := by
  induction l with
  | nil => simp [position]
  | cons a l ih =>
    by_cases h : p a <;> simp [position, h, ih]

theorem position_cons_of_true {T : Type} (p : T → Bool) (b : T) (l : List T) (h : p b = true) :
    position p (b :: l) = some 0 := by
  simp [position, h]

theorem position_cons_of_false {T : Type} (p : T → Bool) (b : T) (l : List T) (h : p b = false) :
    position p (b :: l) = (position p l).map (· + 1) := by
  simp [position, h]

theorem position_append_singleton {T : Type} (p : T → Bool) (l : List T) (a : T)
    (h : position p l = none) :
    position p (l ++ [a]) = if p a then some l.length else none := by
  induction l with
  | nil => simp [position]
  | cons b l ih =>
    cases hb : p b with
    | true => rw [position_cons_of_true p b l hb] at h; exact absurd h (by simp)
    | false =>
      rw [position_cons_of_false p b l hb, Option.map_eq_none'] at h
      rw [List.cons_append, position_cons_of_false p b _ hb, ih h]
      by_cases ha : p a = true <;> simp [ha]

theorem position_append_of_some {T : Type} (p : T → Bool) (l l' : List T) (i : Nat)
    (h : position p l = some i) :
    position p (l ++ l') = some i := by
  induction l generalizing i with
  | nil => simp [position] at h
  | cons b l ih =>
    cases hb : p b with
    | true =>
      rw [position_cons_of_true p b l hb] at h
      rw [List.cons_append, position_cons_of_true p b _ hb]
      exact h
    | false =>
      rw [position_cons_of_false p b l hb, Option.map_eq_some'] at h
      obtain ⟨j, hj, rfl⟩ := h
      rw [List.cons_append, position_cons_of_false p b _ hb, ih j hj]
      rfl

theorem store_of_position_some (t : Textures) (tex : Texture) (i : Nat)
    (h : position (fun record => record.image == tex.image) t.textures = some i) :
    t.store tex = some ⟨i % 2 ^ 32, t, false⟩ := by
  rw [Textures.store, h]

theorem store_of_position_none_ok (t : Textures) (tex : Texture)
    (h : position (fun record => record.image == tex.image) t.textures = none)
    (hcap : t.textures.length % 2 ^ 32 ≠ t.max_descriptors) :
    t.store tex =
      some ⟨t.textures.length % 2 ^ 32, { t with textures := t.textures ++ [tex] }, true⟩ := by
  rw [Textures.store, h]
  show (if t.textures.length % 2 ^ 32 = t.max_descriptors then (none : Option Textures.StoreResult)
    else some ⟨t.textures.length % 2 ^ 32, { t with textures := t.textures ++ [tex] }, true⟩) = _
  rw [if_neg hcap]

theorem store_of_position_none_full (t : Textures) (tex : Texture)
    (h : position (fun record => record.image == tex.image) t.textures = none)
    (hcap : t.textures.length % 2 ^ 32 = t.max_descriptors) :
    t.store tex = none := by
  rw [Textures.store, h]
  show (if t.textures.length % 2 ^ 32 = t.max_descriptors then (none : Option Textures.StoreResult)
    else some ⟨t.textures.length % 2 ^ 32, { t with textures := t.textures ++ [tex] }, true⟩) = _
  rw [if_pos hcap]

theorem storeSeq_fresh_spec (l : List Texture) :
    ∀ t : Textures, l.Pairwise (fun a b => a.image ≠ b.image) →
      (∀ a ∈ l, ∀ r ∈ t.textures, r.image ≠ a.image) →
      t.textures.length + l.length ≤ t.max_descriptors →
      t.max_descriptors ≤ 2 ^ 32 →
      t.storeSeq l =
        some (List.range' t.textures.length l.length,
          { t with textures := t.textures ++ l }) := by
  induction l with
  | nil =>
    intro t _ _ _ _
    simp [Textures.storeSeq]
  | cons tex rest ih =>
    intro t hpw hfresh hcap hmax
    have hnone : position (fun record => record.image == tex.image) t.textures = none := by
      rw [position_eq_none_iff]
      intro r hr
      simpa using hfresh tex (by simp) r hr
    have hlen : t.textures.length < t.max_descriptors := by
      simp only [List.length_cons] at hcap; omega
    have hmod : t.textures.length % 2 ^ 32 = t.textures.length :=
      Nat.mod_eq_of_lt (by omega)
    have hne : t.textures.length % 2 ^ 32 ≠ t.max_descriptors := by
      rw [hmod]; omega
    have hstep : t.storeSeq (tex :: rest) =
        (match ({ t with textures := t.textures ++ [tex] } : Textures).storeSeq rest with
          | none => none
          | some (is, t') => some ((t.textures.length % 2 ^ 32) :: is, t')) := by
      rw [Textures.storeSeq, store_of_position_none_ok t tex hnone hne]
    rw [hstep]
    have ih' := ih { t with textures := t.textures ++ [tex] }
      (List.Pairwise.of_cons hpw)
      (by
        intro a ha r hr
        simp only [List.mem_append, List.mem_singleton] at hr
        rcases hr with hr | rfl
        · exact hfresh a (by simp [ha]) r hr
        · exact (List.pairwise_cons.mp hpw).1 a ha)
      (by simp only [List.length_append, List.length_cons, List.length_nil,
            List.length_singleton] at hcap ⊢
          omega)
      hmax
    simp only at ih'
    rw [ih']
    simp only [List.length_append, List.length_cons, List.length_nil, hmod,
      List.append_assoc, List.singleton_append]
    simp [List.range']

/-- Claim C4: on the bindless texture table, (1) `store` is idempotent with
respect to the underlying image handle: after a successful store returning
slot `i`, storing any texture with the same image handle returns `i` again
with no further descriptor write and no state change; (2) an assigned slot
index never changes across later successful stores; (3) from a freshly
created table, pairwise-distinct textures are assigned the sequential slot
indices `0, 1, 2, ...` in first-use order; (4) after 256 distinct textures
fill the 256-capacity table, storing a 257th distinct texture panics. -/
theorem textures_store_spec :
    (∀ (t : Textures) (tex tex2 : Texture) (r : Textures.StoreResult),
      tex2.image = tex.image → t.store tex = some r →
      r.state.store tex2 = some ⟨r.ret, r.state, false⟩) ∧
    (∀ (t : Textures) (tex tex2 : Texture) (i : Nat) (r : Textures.StoreResult),
      position (fun record => record.image == tex.image) t.textures = some i →
      t.store tex2 = some r →
      position (fun record => record.image == tex.image) r.state.textures = some i) ∧
    (∀ (slot binding : Nat) (l : List Texture),
      l.Pairwise (fun a b => a.image ≠ b.image) → l.length ≤ 256 →
      (Textures.create slot binding).storeSeq l =
        some (List.range l.length,
          { Textures.create slot binding with textures := l })) ∧
    (∀ (slot binding : Nat) (l : List Texture) (tex : Texture),
      l.Pairwise (fun a b => a.image ≠ b.image) →
      (∀ a ∈ l, a.image ≠ tex.image) → l.length = 256 →
      ∃ (is : List Nat) (t' : Textures),
        (Textures.create slot binding).storeSeq l = some (is, t') ∧
        t'.store tex = none) := by
  refine ⟨?_, ?_, ?_, ?_⟩
  · intro t tex tex2 r htex hstore
    have hpred : (fun record : Texture => record.image == tex2.image) =
        (fun record : Texture => record.image == tex.image) := by
      funext record; rw [htex]
    cases hpos : position (fun record => record.image == tex.image) t.textures with
    | some i =>
      rw [store_of_position_some t tex i hpos] at hstore
      obtain rfl := Option.some.inj hstore
      rw [Textures.store, hpred, hpos]
    | none =>
      by_cases hcap : t.textures.length % 2 ^ 32 = t.max_descriptors
      · rw [store_of_position_none_full t tex hpos hcap] at hstore
        exact absurd hstore (by simp)
      · rw [store_of_position_none_ok t tex hpos hcap] at hstore
        obtain rfl := Option.some.inj hstore
        have hlast : position (fun record : Texture => record.image == tex.image)
            (t.textures ++ [tex]) = some t.textures.length := by
          rw [position_append_singleton _ _ _ hpos]
          simp
        rw [show ({ t with textures := t.textures ++ [tex] } : Textures).store tex2 =
            some ⟨t.textures.length % 2 ^ 32, { t with textures := t.textures ++ [tex] },
              false⟩ from by
          rw [Textures.store, hpred]
          rw [show position (fun record : Texture => record.image == tex.image)
              ({ t with textures := t.textures ++ [tex] } : Textures).textures =
              some t.textures.length from hlast]]
  · intro t tex tex2 i r hpos hstore
    cases hpos2 : position (fun record => record.image == tex2.image) t.textures with
    | some j =>
      rw [store_of_position_some t tex2 j hpos2] at hstore
      obtain rfl := Option.some.inj hstore
      exact hpos
    | none =>
      by_cases hcap : t.textures.length % 2 ^ 32 = t.max_descriptors
      · rw [store_of_position_none_full t tex2 hpos2 hcap] at hstore
        exact absurd hstore (by simp)
      · rw [store_of_position_none_ok t tex2 hpos2 hcap] at hstore
        obtain rfl := Option.some.inj hstore
        exact position_append_of_some _ _ _ _ hpos
  · intro slot binding l hpw hlen
    have h := storeSeq_fresh_spec l (Textures.create slot binding) hpw
      (by intro a _ r hr; simp [Textures.create] at hr)
      (by simpa [Textures.create] using hlen)
      (by norm_num [Textures.create])
    simpa [Textures.create, List.range_eq_range'] using h
  · intro slot binding l tex hpw hfresh hlen
    have h := storeSeq_fresh_spec l (Textures.create slot binding) hpw
      (by intro a _ r hr; simp [Textures.create] at hr)
      (by simp [Textures.create, hlen])
      (by norm_num [Textures.create])
    refine ⟨List.range' 0 l.length, _, by simpa [Textures.create] using h, ?_⟩
    have hnone : position (fun record => record.image == tex.image) l = none := by
      rw [position_eq_none_iff]
      intro a ha
      simpa using hfresh a ha
    apply store_of_position_none_full
    · simpa [Textures.create] using hnone
    · simp [Textures.create, hlen]

/-- Concrete instance of C4: storing the same image handle twice on a fresh
table returns slot 0 both times, the second time without a descriptor
write. -/
theorem textures_store_spec_witness :
    ∃ r : Textures.StoreResult,
      (Textures.create 1 0).store ⟨5, 7, 8, 9⟩ = some r ∧ r.ret = 0 ∧
      r.state.store ⟨6, 7, 10, 11⟩ = some ⟨0, r.state, false⟩ := by
  refine ⟨⟨0, { Textures.create 1 0 with textures := [⟨5, 7, 8, 9⟩] }, true⟩, by decide, rfl, ?_⟩
  exact textures_store_spec.1 (Textures.create 1 0) ⟨5, 7, 8, 9⟩ ⟨6, 7, 10, 11⟩ _ rfl (by decide)

/-- Association-list lookup, modelling `HashMap::get`. -/
def assocFind {K V : Type} [DecidableEq K] (l : List (K × V)) (k : K) : Option V :=
  match l with
  | [] => none
  | (k', v) :: rest => if k' = k then some v else assocFind rest k

/-- Association-list insert/replace, modelling `HashMap::insert` and
in-place mutation through `get_mut`/`entry`. -/
def assocInsert {K V : Type} [DecidableEq K] (l : List (K × V)) (k : K) (v : V) :
    List (K × V) :=
  match l with
  | [] => [(k, v)]
  | (k', v') :: rest => if k' = k then (k, v) :: rest else (k', v') :: assocInsert rest k v

/-- `TextureRecord` (src/textures/loader.rs lines 17-20). -/
structure TextureRecord where
  current : Texture
  loading : Option Texture
deriving DecidableEq

/-- Host-visible state of `TexturesManager` (src/textures/loader.rs lines
22-31): the record map, the round-robin reader index, the number of reader
channels (2 in `new`), and the two reserved textures.  Channels are
modelled by the job/response lists threaded through the operations. -/
structure TexturesManager where
  records : List (String × TextureRecord)
  readers_index : Nat
  readers : Nat
  fallback : Texture
  blank : Texture
deriving DecidableEq

/-- Modelled from the spec: the reserved path key of the fallback sentinel
texture (`Texture::FALLBACK`, whose definition is not under src/). -/
def Texture.FALLBACK : String := "fallback"

/-- Modelled from the spec: the reserved path key of the blank sentinel
texture (`Texture::BLANK`, whose definition is not under src/). -/
def Texture.BLANK : String := "blank"

/-- `TextureLoaderResponse` (loader.rs lines 37-39). -/
inductive TextureLoaderResponse where
  | Loaded (path : String) (handle : Texture)
deriving DecidableEq

/-- Result of `TexturesManager::get_texture`: returned texture, state after
the call, and the read jobs `(reader, path, handle)` dispatched. -/
structure GetTextureResult where
  texture : Texture
  manager : TexturesManager
  jobs : List (Nat × String × Texture)
deriving DecidableEq

namespace TexturesManager

/-- `TexturesManager::get_texture` (loader.rs lines 156-186): reserved
paths return their sentinel; otherwise the record is created on first use
(`current = fallback`, `loading = Some(fallback)`); for a non-`memory:`
path still showing the fallback, an available `loading` handle is taken
and one read job is dispatched to the next round-robin reader; returns
`record.current`. -/
def get_texture (m : TexturesManager) (path : String) : GetTextureResult :=
  if path = Texture.FALLBACK then ⟨m.fallback, m, []⟩
  else if path = Texture.BLANK then ⟨m.blank, m, []⟩
  else
    let record :=
      match assocFind m.records path with
      | some r => r
      | none => ⟨m.fallback, some m.fallback⟩
    if path.startsWith "memory:" = false ∧ record.current = m.fallback then
      match record.loading with
      | some handle =>
        let readers_index := (m.readers_index + 1) % m.readers
        ⟨record.current,
          { m with
            records := assocInsert m.records path ⟨record.current, none⟩
            readers_index := readers_index },
          [(readers_index, path, handle)]⟩
      | none =>
        ⟨record.current, { m with records := assocInsert m.records path record }, []⟩
    else ⟨record.current, { m with records := assocInsert m.records path record }, []⟩

/-- One drained completion message inside `TexturesManager::update`
(loader.rs lines 188-205): the loaded handle becomes `current` and the
previously current handle becomes the available `loading` slot; an unknown
path is logged and skipped. -/
def applyResponse (m : TexturesManager) (r : TextureLoaderResponse) : TexturesManager :=
  match r with
  | .Loaded path handle =>
    match assocFind m.records path with
    | none => m
    | some record =>
      { m with records := assocInsert m.records path ⟨handle, some record.current⟩ }

/-- `TexturesManager::update`: non-blocking drain of the completion
channel, modelled by the list of pending responses. -/
def update (m : TexturesManager) (responses : List TextureLoaderResponse) :
    TexturesManager :=
  responses.foldl applyResponse m

end TexturesManager

theorem assocFind_insert_self {K V : Type} [DecidableEq K] (l : List (K × V)) (k : K) (v : V) :
    assocFind (assocInsert l k v) k = some v := by
  induction l with
  | nil => simp [assocFind, assocInsert]
  | cons p rest ih =>
    obtain ⟨k', v'⟩ := p
    by_cases hk : k' = k
    · simp [assocFind, assocInsert, hk]
    · simp [assocFind, assocInsert, hk, ih]

theorem assocInsert_self {K V : Type} [DecidableEq K] (l : List (K × V)) (k : K) (v : V)
    (h : assocFind l k = some v) : assocInsert l k v = l := by
  induction l with
  | nil => simp [assocFind] at h
  | cons p rest ih =>
    obtain ⟨k', v'⟩ := p
    by_cases hk : k' = k
    · simp only [assocFind, hk, if_pos] at h
      obtain rfl := Option.some.inj h
      simp [assocInsert, hk]
    · simp only [assocFind, hk, if_neg, if_false] at h
      simp [assocInsert, hk, ih h]

theorem get_texture_first_request (m : TexturesManager) (path : String)
    (hfb : path ≠ Texture.FALLBACK) (hbl : path ≠ Texture.BLANK)
    (hnew : assocFind m.records path = none)
    (hmem : path.startsWith "memory:" = false) :
    m.get_texture path =
      ⟨m.fallback,
        { m with
          records := assocInsert m.records path ⟨m.fallback, none⟩
          readers_index := (m.readers_index + 1) % m.readers },
        [((m.readers_index + 1) % m.readers, path, m.fallback)]⟩ := by
  rw [TexturesManager.get_texture, if_neg hfb, if_neg hbl]
  simp only [hnew]
  rw [if_pos (by exact ⟨hmem, by trivial⟩)]

theorem get_texture_in_flight (m : TexturesManager) (path : String)
    (record : TextureRecord)
    (hfb : path ≠ Texture.FALLBACK) (hbl : path ≠ Texture.BLANK)
    (hfind : assocFind m.records path = some record)
    (hmem : path.startsWith "memory:" = false)
    (hcur : record.current = m.fallback) (hload : record.loading = none) :
    m.get_texture path =
      ⟨m.fallback, { m with records := assocInsert m.records path record }, []⟩ := by
  rw [TexturesManager.get_texture, if_neg hfb, if_neg hbl]
  simp only [hfind]
  rw [if_pos (by exact ⟨hmem, hcur⟩)]
  rw [hload, hcur]

theorem get_texture_loaded (m : TexturesManager) (path : String)
    (record : TextureRecord)
    (hfb : path ≠ Texture.FALLBACK) (hbl : path ≠ Texture.BLANK)
    (hfind : assocFind m.records path = some record)
    (hcur : record.current ≠ m.fallback) :
    m.get_texture path =
      ⟨record.current, { m with records := assocInsert m.records path record }, []⟩ := by
  rw [TexturesManager.get_texture, if_neg hfb, if_neg hbl]
  simp only [hfind]
  rw [if_neg (by
    intro hc
    exact hcur hc.2)]

/-- Claim C5: for a path never requested before (and distinct from the
reserved sentinel paths and not a `memory:` dynamic texture), the first
`get_texture` returns the fallback, registers the record with its loading
slot claimed (`loading = none`) and dispatches exactly one read job to the
next round-robin reader; a second `get_texture` while the load is in
flight returns the fallback, dispatches no job and leaves the manager
unchanged; after `update` drains the loader's completion message carrying
handle `h`, the record holds `current = h` with the previously current
handle (the fallback) in the loading slot, and a subsequent `get_texture`
returns `h` and dispatches nothing. -/
theorem textures_manager_get_texture_spec (m : TexturesManager) (path : String) (h : Texture)
    (hnew : assocFind m.records path = none)
    (hfb : path ≠ Texture.FALLBACK) (hbl : path ≠ Texture.BLANK)
    (hmem : path.startsWith "memory:" = false)
    (hld : h ≠ m.fallback) :
    (m.get_texture path).texture = m.fallback ∧
    (m.get_texture path).jobs = [((m.readers_index + 1) % m.readers, path, m.fallback)] ∧
    assocFind (m.get_texture path).manager.records path = some ⟨m.fallback, none⟩ ∧
    ((m.get_texture path).manager.get_texture path).texture = m.fallback ∧
    ((m.get_texture path).manager.get_texture path).jobs = [] ∧
    ((m.get_texture path).manager.get_texture path).manager = (m.get_texture path).manager ∧
    assocFind ((m.get_texture path).manager.update
        [TextureLoaderResponse.Loaded path h]).records path = some ⟨h, some m.fallback⟩ ∧
    (((m.get_texture path).manager.update
        [TextureLoaderResponse.Loaded path h]).get_texture path).texture = h ∧
    (((m.get_texture path).manager.update
        [TextureLoaderResponse.Loaded path h]).get_texture path).jobs = [] := by
  have h1 := get_texture_first_request m path hfb hbl hnew hmem
  have hfind1 : assocFind
      ({ m with
        records := assocInsert m.records path ⟨m.fallback, none⟩
        readers_index := (m.readers_index + 1) % m.readers } :
          TexturesManager).records path = some ⟨m.fallback, none⟩ :=
    assocFind_insert_self m.records path _
  have h2 := get_texture_in_flight _ path ⟨m.fallback, none⟩ hfb hbl hfind1 hmem rfl rfl
  rw [assocInsert_self _ path _ hfind1] at h2
  have h3 : ((m.get_texture path).manager.update
      [TextureLoaderResponse.Loaded path h]) =
      { m with
        records := assocInsert (assocInsert m.records path ⟨m.fallback, none⟩) path
          ⟨h, some m.fallback⟩
        readers_index := (m.readers_index + 1) % m.readers } := by
    rw [h1]
    rw [TexturesManager.update, List.foldl_cons, List.foldl_nil,
      TexturesManager.applyResponse]
    simp only [hfind1]
  have hfind2 : assocFind
      ({ m with
        records := assocInsert (assocInsert m.records path ⟨m.fallback, none⟩) path
          ⟨h, some m.fallback⟩
        readers_index := (m.readers_index + 1) % m.readers } :
          TexturesManager).records path = some ⟨h, some m.fallback⟩ :=
    assocFind_insert_self _ path _
  have h4 := get_texture_loaded _ path ⟨h, some m.fallback⟩ hfb hbl hfind2 hld
  refine ⟨by rw [h1], by rw [h1], by rw [h1]; exact hfind1, ?_, ?_, ?_, ?_, ?_, ?_⟩
  · rw [h1]; rw [show ((⟨m.fallback,
      { m with
        records := assocInsert m.records path ⟨m.fallback, none⟩
        readers_index := (m.readers_index + 1) % m.readers },
      [((m.readers_index + 1) % m.readers, path, m.fallback)]⟩ :
        GetTextureResult)).manager.get_texture path = _ from h2]
  · rw [h1]; rw [show ((⟨m.fallback,
      { m with
        records := assocInsert m.records path ⟨m.fallback, none⟩
        readers_index := (m.readers_index + 1) % m.readers },
      [((m.readers_index + 1) % m.readers, path, m.fallback)]⟩ :
        GetTextureResult)).manager.get_texture path = _ from h2]
  · rw [h1]; rw [show ((⟨m.fallback,
      { m with
        records := assocInsert m.records path ⟨m.fallback, none⟩
        readers_index := (m.readers_index + 1) % m.readers },
      [((m.readers_index + 1) % m.readers, path, m.fallback)]⟩ :
        GetTextureResult)).manager.get_texture path = _ from h2]
  · rw [h3]; exact hfind2
  · rw [h3, h4]
  · rw [h3, h4]

/-- Concrete instance of C5: first request for "a.png" on a fresh manager
returns the fallback and dispatches one job; after the completion message
the loaded handle is returned. -/
theorem textures_manager_get_texture_spec_witness :
    ((⟨[], 1, 2, ⟨0, 0, 0, 0⟩, ⟨1, 1, 1, 1⟩⟩ : TexturesManager).get_texture
        "a.png").texture = ⟨0, 0, 0, 0⟩ ∧
    (((((⟨[], 1, 2, ⟨0, 0, 0, 0⟩, ⟨1, 1, 1, 1⟩⟩ : TexturesManager).get_texture
        "a.png").manager.update
          [TextureLoaderResponse.Loaded "a.png" ⟨2, 2, 2, 2⟩]).get_texture "a.png").texture) =
      ⟨2, 2, 2, 2⟩ := by
  have h := textures_manager_get_texture_spec
    ⟨[], 1, 2, ⟨0, 0, 0, 0⟩, ⟨1, 1, 1, 1⟩⟩ "a.png" ⟨2, 2, 2, 2⟩ rfl (by decide) (by decide)
    (by decide) (by decide)
  exact ⟨h.1, h.2.2.2.2.2.2.2.1⟩

/-- Result of `vkAcquireNextImageKHR` as matched by
`Vulkan::acquire_next_image` (a suboptimal acquire is an `Ok` success
code, hence `ok`). -/
inductive AcquireOutcome where
  | ok (next_image : Nat)
  | outOfDate
  | err
deriving DecidableEq

/-- Result of `vkQueuePresentKHR` as matched by `Vulkan::present`. -/
inductive PresentOutcome where
  | success
  | suboptimal
  | outOfDate
  | err
deriving DecidableEq

/-- `FRAMES_PROCESSING_CONCURRENCY` (src/vulkan/mod.rs line 638). -/
def FRAMES_PROCESSING_CONCURRENCY : Nat := 2

/-- `Sync` (src/vulkan/mod.rs): per-frame-slot fences, the fence currently
associated with each swapchain image (`Fence::null()` as `none`) and the
frame slot index. -/
structure Sync where
  fences : List Nat
  images : List (Option Nat)
  frame : Nat
deriving DecidableEq

/-- Host-visible frame-pacing state of `Vulkan`: sync objects, the
deferred-resize flag, and a swapchain generation counter bumped by every
`resize()` (destroy-and-recreate). -/
structure VulkanState where
  sync : Sync
  need_resize : Bool
  swapchain_generation : Nat
deriving DecidableEq

/-- Events observable during `acquire_next_image`, in call order. -/
inductive Ev where
  | waitFence (fence : Nat)
  | askSurface
  | resizeSwapchain
  | waitImageFence (fence : Nat)
deriving DecidableEq

/-- `Vulkan::resize`: idles the device and destroys/recreates the
swapchain and its dependents, modelled as bumping the generation. -/
def VulkanState.resize (s : VulkanState) : VulkanState :=
  { s with swapchain_generation := s.swapchain_generation + 1 }

/-- `Vulkan::acquire_next_image` (src/vulkan/mod.rs lines 287-323),
parameterized by the surface's acquire result.  `none` models a panic,
`some none` the `None` retry signal, `some (some chain)` success; the
event trace records fence waits, the surface query and resizes in order. -/
def acquire_next_image (s : VulkanState) (surface : AcquireOutcome) :
    Option (Option Nat) × VulkanState × List Ev :=
  let fence := s.sync.fences.getD s.sync.frame 0
  if s.need_resize then
    (some none, { s.resize with need_resize := false },
      [Ev.waitFence fence, Ev.resizeSwapchain])
  else
    match surface with
    | AcquireOutcome.outOfDate =>
      (some none, s.resize, [Ev.waitFence fence, Ev.askSurface, Ev.resizeSwapchain])
    | AcquireOutcome.err => (none, s, [Ev.waitFence fence, Ev.askSurface])
    | AcquireOutcome.ok chain =>
      let imageTrace :=
        match s.sync.images.getD chain none with
        | some image => [Ev.waitImageFence image]
        | none => []
      (some (some chain),
        { s with sync := { s.sync with images := s.sync.images.set chain (some fence) } },
        [Ev.waitFence fence, Ev.askSurface] ++ imageTrace)

/-- `Vulkan::present` (src/vulkan/mod.rs lines 325-364), parameterized by
the present call's result: suboptimal/out-of-date only set the
needs-resize flag; any other error panics (`none`) before the frame
advance; otherwise the frame slot advances modulo
`FRAMES_PROCESSING_CONCURRENCY`. -/
def present (s : VulkanState) (result : PresentOutcome) : Option VulkanState :=
  if result = PresentOutcome.suboptimal ∨ result = PresentOutcome.outOfDate then
    some { s with
      need_resize := true
      sync := { s.sync with frame := (s.sync.frame + 1) % FRAMES_PROCESSING_CONCURRENCY } }
  else if result = PresentOutcome.err then none
  else
    some { s with
      sync := { s.sync with frame := (s.sync.frame + 1) % FRAMES_PROCESSING_CONCURRENCY } }

/-- Claim C6 counterexample: in a state whose needs-resize flag is set (as
left by a suboptimal present), `acquire_next_image` waits on the frame
fence, resizes and returns the retry signal WITHOUT ever asking the
surface for the next image index — a fourth behavior beyond the claim's
"waits, then asks the surface, with exactly three outcomes". -/
theorem acquire_flag_skips_surface :
    (acquire_next_image ⟨⟨[10, 11], [none, none, none], 0⟩, true, 5⟩
        (AcquireOutcome.ok 2)).1 = some none ∧
    (acquire_next_image ⟨⟨[10, 11], [none, none, none], 0⟩, true, 5⟩
        (AcquireOutcome.ok 2)).2.2 = [Ev.waitFence 10, Ev.resizeSwapchain] ∧
    Ev.askSurface ∉ (acquire_next_image ⟨⟨[10, 11], [none, none, none], 0⟩, true, 5⟩
        (AcquireOutcome.ok 2)).2.2 := by
  decide

/-- Claim C6 (amended): when the needs-resize flag is clear at entry,
`acquire_next_image` first waits on the current frame-slot fence, then
asks the surface for the next image index, with exactly three outcomes:
out-of-date resizes and returns the retry signal; any other surface error
panics; on success it waits on any fence already associated with that
image index, records the frame-slot fence as that image's fence and
returns the index (without resizing).  (When the flag is set, it instead
resizes and returns the retry signal without consulting the surface.) -/
theorem acquire_next_image_spec (s : VulkanState) (surface : AcquireOutcome)
    (hflag : s.need_resize = false) :
    (acquire_next_image s surface).2.2.take 2 =
      [Ev.waitFence (s.sync.fences.getD s.sync.frame 0), Ev.askSurface] ∧
    (surface = AcquireOutcome.outOfDate →
      acquire_next_image s surface =
        (some none, s.resize,
          [Ev.waitFence (s.sync.fences.getD s.sync.frame 0), Ev.askSurface,
            Ev.resizeSwapchain])) ∧
    (surface = AcquireOutcome.err →
      (acquire_next_image s surface).1 = none ∧
      (acquire_next_image s surface).2.1 = s) ∧
    (∀ chain, surface = AcquireOutcome.ok chain →
      (acquire_next_image s surface).1 = some (some chain) ∧
      (acquire_next_image s surface).2.1 =
        { s with sync :=
            { s.sync with
              images := s.sync.images.set chain
                (some (s.sync.fences.getD s.sync.frame 0)) } } ∧
      (acquire_next_image s surface).2.1.swapchain_generation = s.swapchain_generation ∧
      (acquire_next_image s surface).2.2 =
        [Ev.waitFence (s.sync.fences.getD s.sync.frame 0), Ev.askSurface] ++
          (match s.sync.images.getD chain none with
            | some image => [Ev.waitImageFence image]
            | none => [])) := by
  cases surface with
  | ok chain =>
    refine ⟨?_, by simp, by simp, ?_⟩
    · simp only [acquire_next_image, hflag, Bool.false_eq_true, if_false]
      cases s.sync.images.getD chain none <;> simp
    · intro c hc
      obtain rfl := AcquireOutcome.ok.inj hc
      simp only [acquire_next_image, hflag, Bool.false_eq_true, if_false]
      cases s.sync.images.getD chain none <;> simp
  | outOfDate =>
    refine ⟨?_, ?_, by simp, by simp⟩ <;>
      simp [acquire_next_image, hflag]
  | err =>
    refine ⟨?_, by simp, ?_, by simp⟩ <;>
      simp [acquire_next_image, hflag]

/-- Concrete instance of the amended C6: a successful acquire of image 0
returns the index, records fence 10 for image 0 and waits on image 0's
previous fence 7. -/
theorem acquire_next_image_spec_witness :
    (acquire_next_image ⟨⟨[10, 11], [some 7, none], 0⟩, false, 3⟩
        (AcquireOutcome.ok 0)).1 = some (some 0) ∧
    (acquire_next_image ⟨⟨[10, 11], [some 7, none], 0⟩, false, 3⟩
        (AcquireOutcome.ok 0)).2.2 =
      [Ev.waitFence 10, Ev.askSurface] ++ [Ev.waitImageFence 7] := by
  have h := acquire_next_image_spec ⟨⟨[10, 11], [some 7, none], 0⟩, false, 3⟩
    (AcquireOutcome.ok 0) rfl
  exact ⟨(h.2.2.2 0 rfl).1, (h.2.2.2 0 rfl).2.2.2⟩

/-- Claim C7: every completed `present` advances the frame slot by exactly
one modulo `FRAMES_PROCESSING_CONCURRENCY = 2` — including suboptimal and
out-of-date presents, which only set the needs-resize flag and never
touch the swapchain (generation unchanged) — so the frame slot is always
an index in `[0, 2)`; and `present` completes for every non-fatal present
result. -/
theorem present_advances_frame_spec :
    (∀ (s : VulkanState) (result : PresentOutcome) (s' : VulkanState),
      present s result = some s' →
      s'.sync.frame = (s.sync.frame + 1) % FRAMES_PROCESSING_CONCURRENCY ∧
      s'.sync.frame < FRAMES_PROCESSING_CONCURRENCY ∧
      s'.swapchain_generation = s.swapchain_generation ∧
      s'.need_resize =
        (if result = PresentOutcome.suboptimal ∨ result = PresentOutcome.outOfDate then
          true
        else s.need_resize)) ∧
    (∀ (s : VulkanState) (result : PresentOutcome), result ≠ PresentOutcome.err →
      (present s result).isSome = true) := by
  constructor
  · intro s result s' hp
    have hlt : (s.sync.frame + 1) % FRAMES_PROCESSING_CONCURRENCY <
        FRAMES_PROCESSING_CONCURRENCY :=
      Nat.mod_lt _ (by norm_num [FRAMES_PROCESSING_CONCURRENCY])
    cases result with
    | success =>
      rw [show present s PresentOutcome.success =
          some { s with sync :=
            { s.sync with
              frame := (s.sync.frame + 1) % FRAMES_PROCESSING_CONCURRENCY } } from rfl] at hp
      obtain rfl := Option.some.inj hp
      exact ⟨rfl, hlt, rfl, by simp⟩
    | suboptimal =>
      rw [show present s PresentOutcome.suboptimal =
          some { s with
            need_resize := true
            sync := { s.sync with
              frame := (s.sync.frame + 1) % FRAMES_PROCESSING_CONCURRENCY } } from rfl] at hp
      obtain rfl := Option.some.inj hp
      exact ⟨rfl, hlt, rfl, by simp⟩
    | outOfDate =>
      rw [show present s PresentOutcome.outOfDate =
          some { s with
            need_resize := true
            sync := { s.sync with
              frame := (s.sync.frame + 1) % FRAMES_PROCESSING_CONCURRENCY } } from rfl] at hp
      obtain rfl := Option.some.inj hp
      exact ⟨rfl, hlt, rfl, by simp⟩
    | err =>
      rw [show present s PresentOutcome.err = none from rfl] at hp
      exact absurd hp (by simp)
  · intro s result hr
    cases result with
    | success => rfl
    | suboptimal => rfl
    | outOfDate => rfl
    | err => exact absurd rfl hr

/-- Concrete instance of C7: a suboptimal present from frame slot 0
completes, advances the slot to 1 < 2, sets the flag and leaves the
swapchain generation unchanged. -/
theorem present_advances_frame_spec_witness :
    (⟨⟨[], [], 1⟩, true, 0⟩ : VulkanState).sync.frame =
      ((⟨⟨[], [], 0⟩, false, 0⟩ : VulkanState).sync.frame + 1) %
        FRAMES_PROCESSING_CONCURRENCY ∧
    (⟨⟨[], [], 1⟩, true, 0⟩ : VulkanState).sync.frame <
      FRAMES_PROCESSING_CONCURRENCY := by
  have h := present_advances_frame_spec.1 ⟨⟨[], [], 0⟩, false, 0⟩
    PresentOutcome.suboptimal ⟨⟨[], [], 1⟩, true, 0⟩ (by decide)
  exact ⟨h.1, h.2.1⟩

/-- A rasterized glyph's metrics as produced by `fontdue`'s `rasterize`:
bitmap width and height in pixels and the vertical offset `ymin`. -/
structure Glyph where
  width : Nat
  height : Nat
  ymin : Int
deriving DecidableEq

/-- The pixel-level atlas cell recorded for a character by the bake loop:
cell origin (`src_x`, `src_y` = the placement offsets), cell size
(`step_x`, `step_y`) and the baseline-relative vertical offset.  (The Rust
`Char` stores the origin and size divided by the atlas size as f32 UV
fractions; the pixel rectangle is the underlying datum.) -/
structure CharCell where
  src_x : Nat
  src_y : Nat
  step_x : Nat
  step_y : Nat
  glyph_offset : Nat
deriving DecidableEq

/-- `round_up_pow_2` (src/fonts/raster.rs lines 132-144): bit-smearing
round-up to the next power of two, with 0 mapped to 1. -/
def round_up_pow_2 (value : Nat) : Nat :=
  if value = 0 then 1
  else
    let value := value - 1
    let value := value ||| (value >>> 1)
    let value := value ||| (value >>> 2)
    let value := value ||| (value >>> 4)
    let value := value ||| (value >>> 8)
    let value := value ||| (value >>> 16)
    value + 1

/-- The skip condition of the bake loop as a boolean (raster.rs lines
60-73): a glyph is dropped iff it is taller than the line height, or its
top (`height + ymin`) exceeds the baseline. -/
def keptGlyph (line_height baseline : Nat) (g : Glyph) : Bool :=
  !(decide (g.height > line_height) ||
    decide ((g.height : Int) + g.ymin > (baseline : Int)))

/-- Mutable state of the glyph loop of `rasterize_font_to_image_file`:
the packing offsets and the charset map. -/
structure BakeState where
  offset_x : Nat
  offset_y : Nat
  charset : List (Char × CharCell)
deriving DecidableEq

/-- Row-wrap step of the bake loop (raster.rs lines 51-54): before
placing, wrap to a new row when the cell would reach the atlas width. -/
def bakeWrap (step_x step_y w : Nat) (st : BakeState) : BakeState :=
  if st.offset_x + step_x ≥ w then
    { st with offset_x := 0, offset_y := st.offset_y + step_y }
  else st

/-- One iteration of the glyph loop of `rasterize_font_to_image_file`
(raster.rs lines 48-113): rasterize the character, wrap the row if
needed, skip a too-tall glyph (logged error, `continue`), otherwise
record the cell in the charset and advance `offset_x`. -/
def bakeStep (line_height baseline w : Nat) (rast : Char → Glyph)
    (st : BakeState) (c : Char) : BakeState :=
  let glyph := rast c
  let step_x := round_up_pow_2 glyph.width
  let step_y := round_up_pow_2 line_height
  let st := bakeWrap step_x step_y w st
  if glyph.height > line_height then st
  else if (glyph.height : Int) + glyph.ymin > (baseline : Int) then st
  else
    let glyph_offset := ((baseline : Int) - ((glyph.height : Int) + glyph.ymin)).toNat
    { st with
      charset := assocInsert st.charset c
        ⟨st.offset_x, st.offset_y, step_x, step_y, glyph_offset⟩
      offset_x := st.offset_x + step_x }

/-- The whole glyph loop over the requested alphabet, from empty offsets
and an empty charset. -/
def bake (line_height baseline w : Nat) (rast : Char → Glyph)
    (alphabet : List Char) : BakeState :=
  alphabet.foldl (bakeStep line_height baseline w rast) ⟨0, 0, []⟩

/-- Two atlas cells are disjoint as pixel rectangles. -/
def cellsDisjoint (a b : CharCell) : Prop :=
  a.src_x + a.step_x ≤ b.src_x ∨ b.src_x + b.step_x ≤ a.src_x ∨
  a.src_y + a.step_y ≤ b.src_y ∨ b.src_y + b.step_y ≤ a.src_y

/-- Packing invariant of the bake loop: charset keys are distinct, every
recorded cell is a full row-height cell lying entirely in a finished row
or to the left of the cursor in the current row, and all recorded cells
are pairwise disjoint. -/
def BakeInv (line_height : Nat) (st : BakeState) : Prop :=
  (st.charset.map Prod.fst).Nodup ∧
  (∀ pr ∈ st.charset, pr.2.step_y = round_up_pow_2 line_height ∧
    (pr.2.src_y + pr.2.step_y ≤ st.offset_y ∨
      (pr.2.src_y = st.offset_y ∧ pr.2.src_x + pr.2.step_x ≤ st.offset_x))) ∧
  (∀ p ∈ st.charset, ∀ q ∈ st.charset, p.1 ≠ q.1 → cellsDisjoint p.2 q.2)

theorem assocInsert_of_not_mem {K V : Type} [DecidableEq K] (l : List (K × V)) (k : K) (v : V)
    (h : k ∉ l.map Prod.fst) : assocInsert l k v = l ++ [(k, v)] := by
  induction l with
  | nil => rfl
  | cons p rest ih =>
    obtain ⟨k', v'⟩ := p
    simp only [List.map_cons, List.mem_cons] at h
    push_neg at h
    rw [assocInsert, if_neg (fun he => h.1 he.symm), ih h.2]
    rfl

theorem bakeWrap_inv (lh sx w : Nat) (st : BakeState) (h : BakeInv lh st) :
    BakeInv lh (bakeWrap sx (round_up_pow_2 lh) w st) ∧
    (bakeWrap sx (round_up_pow_2 lh) w st).charset = st.charset := by
  rw [bakeWrap]
  by_cases hw : st.offset_x + sx ≥ w
  · rw [if_pos hw]
    refine ⟨⟨h.1, ?_, h.2.2⟩, rfl⟩
    intro pr hpr
    obtain ⟨hsy, hrb⟩ := h.2.1 pr hpr
    refine ⟨hsy, Or.inl ?_⟩
    have hgoal : pr.2.src_y + pr.2.step_y ≤ st.offset_y + round_up_pow_2 lh := by
      rcases hrb with h1 | ⟨h2, _⟩ <;> omega
    exact hgoal
  · rw [if_neg hw]
    exact ⟨h, rfl⟩

/-- Placement of a non-skipped glyph's cell (raster.rs lines 74-112). -/
def bakePlace (lh baseline : Nat) (g : Glyph) (st : BakeState) (c : Char) : BakeState :=
  { st with
    charset := assocInsert st.charset c
      ⟨st.offset_x, st.offset_y, round_up_pow_2 g.width, round_up_pow_2 lh,
        ((baseline : Int) - ((g.height : Int) + g.ymin)).toNat⟩
    offset_x := st.offset_x + round_up_pow_2 g.width }

theorem bakePlace_inv (lh baseline : Nat) (g : Glyph) (st : BakeState) (c : Char)
    (hinv : BakeInv lh st) (hc : c ∉ st.charset.map Prod.fst) :
    BakeInv lh (bakePlace lh baseline g st c) ∧
    (bakePlace lh baseline g st c).charset.map Prod.fst =
      st.charset.map Prod.fst ++ [c] := by
  rw [bakePlace, assocInsert_of_not_mem st.charset c _ hc]
  constructor
  · refine ⟨?_, ?_, ?_⟩
    · simp only [List.map_append, List.map_cons, List.map_nil]
      rw [List.nodup_append]
      refine ⟨hinv.1, List.nodup_singleton c, ?_⟩
      intro a ha hb
      rw [List.mem_singleton] at hb
      subst hb
      exact hc ha
    · intro pr hpr
      rw [List.mem_append, List.mem_singleton] at hpr
      rcases hpr with hpr | rfl
      · obtain ⟨hsy, hrb⟩ := hinv.2.1 pr hpr
        refine ⟨hsy, ?_⟩
        rcases hrb with hA | ⟨hB1, hB2⟩
        · exact Or.inl hA
        · refine Or.inr ⟨hB1, ?_⟩
          have hgoal : pr.2.src_x + pr.2.step_x ≤
              st.offset_x + round_up_pow_2 g.width := by omega
          exact hgoal
      · exact ⟨rfl, Or.inr ⟨rfl, le_refl _⟩⟩
    · intro p hp q hq hne
      rw [List.mem_append, List.mem_singleton] at hp hq
      rcases hp with hp | rfl <;> rcases hq with hq | rfl
      · exact hinv.2.2 p hp q hq hne
      · obtain ⟨hsy, hrb⟩ := hinv.2.1 p hp
        unfold cellsDisjoint
        rcases hrb with hA | ⟨hB1, hB2⟩
        · exact Or.inr (Or.inr (Or.inl hA))
        · exact Or.inl hB2
      · obtain ⟨hsy, hrb⟩ := hinv.2.1 q hq
        unfold cellsDisjoint
        rcases hrb with hA | ⟨hB1, hB2⟩
        · exact Or.inr (Or.inr (Or.inr hA))
        · exact Or.inr (Or.inl hB2)
      · exact absurd rfl hne
  · simp

theorem bakeStep_cases (lh baseline w : Nat) (rast : Char → Glyph) (st : BakeState) (c : Char)
    (hinv : BakeInv lh st) (hc : c ∉ st.charset.map Prod.fst) :
    BakeInv lh (bakeStep lh baseline w rast st c) ∧
    (bakeStep lh baseline w rast st c).charset.map Prod.fst =
      st.charset.map Prod.fst ++
        (if keptGlyph lh baseline (rast c) = true then [c] else []) := by
  obtain ⟨hinv1, hcs⟩ := bakeWrap_inv lh (round_up_pow_2 (rast c).width) w st hinv
  have hc1 : c ∉ (bakeWrap (round_up_pow_2 (rast c).width) (round_up_pow_2 lh) w
      st).charset.map Prod.fst := by
    rw [hcs]; exact hc
  have hstep : bakeStep lh baseline w rast st c =
      (if (rast c).height > lh then
        bakeWrap (round_up_pow_2 (rast c).width) (round_up_pow_2 lh) w st
      else if ((rast c).height : Int) + (rast c).ymin > (baseline : Int) then
        bakeWrap (round_up_pow_2 (rast c).width) (round_up_pow_2 lh) w st
      else
        bakePlace lh baseline (rast c)
          (bakeWrap (round_up_pow_2 (rast c).width) (round_up_pow_2 lh) w st) c) := by
    rw [bakeStep, bakePlace]
  rw [hstep]
  by_cases h1 : (rast c).height > lh
  · rw [if_pos h1, hcs]
    refine ⟨hinv1, ?_⟩
    rw [if_neg (by simp [keptGlyph, h1])]
    simp
  · rw [if_neg h1]
    by_cases h2 : ((rast c).height : Int) + (rast c).ymin > (baseline : Int)
    · rw [if_pos h2, hcs]
      refine ⟨hinv1, ?_⟩
      rw [if_neg (by simp [keptGlyph, h2])]
      simp
    · rw [if_neg h2]
      obtain ⟨hpinv, hpkeys⟩ := bakePlace_inv lh baseline (rast c) _ c hinv1 hc1
      refine ⟨hpinv, ?_⟩
      rw [hpkeys, hcs, if_pos (by simp [keptGlyph, h1, h2])]

theorem bake_fold_inv (lh baseline w : Nat) (rast : Char → Glyph) (l : List Char) :
    ∀ st : BakeState, BakeInv lh st → l.Nodup →
      (∀ c ∈ l, c ∉ st.charset.map Prod.fst) →
      BakeInv lh (List.foldl (bakeStep lh baseline w rast) st l) ∧
      (List.foldl (bakeStep lh baseline w rast) st l).charset.map Prod.fst =
        st.charset.map Prod.fst ++
          l.filter (fun c => keptGlyph lh baseline (rast c)) := by
  induction l with
  | nil =>
    intro st h _ _
    refine ⟨h, ?_⟩
    simp
  | cons c rest ih =>
    intro st hinv hnd hfresh
    obtain ⟨hinv', hkeys⟩ := bakeStep_cases lh baseline w rast st c hinv (hfresh c (by simp))
    rw [List.foldl_cons]
    have hfresh' : ∀ d ∈ rest,
        d ∉ (bakeStep lh baseline w rast st c).charset.map Prod.fst := by
      intro d hd hmem
      rw [hkeys] at hmem
      rcases List.mem_append.mp hmem with hm | hm
      · exact hfresh d (by simp [hd]) hm
      · have hdc : d ≠ c := by
          intro he
          subst he
          exact (List.nodup_cons.mp hnd).1 hd
        by_cases hk : keptGlyph lh baseline (rast c) = true
        · rw [if_pos hk, List.mem_singleton] at hm
          exact hdc hm
        · rw [if_neg hk] at hm
          simp at hm
    obtain ⟨hfin, hfkeys⟩ := ih (bakeStep lh baseline w rast st c) hinv'
      (List.nodup_cons.mp hnd).2 hfresh'
    refine ⟨hfin, ?_⟩
    rw [hfkeys, hkeys, List.filter_cons]
    by_cases hk : keptGlyph lh baseline (rast c) = true
    · rw [if_pos hk, if_pos hk]
      simp
    · rw [if_neg hk, if_neg hk]
      simp

theorem keptGlyph_iff (lh baseline : Nat) (g : Glyph) :
    keptGlyph lh baseline g = true ↔
      ¬ (g.height > lh ∨ (g.height : Int) + g.ymin > (baseline : Int)) := by
  simp [keptGlyph, not_or]

/-- Claim C8: during the font-atlas bake over a duplicate-free alphabet, a
character is omitted from the returned charset (the bake continuing past
it) iff its glyph is taller than the computed line height or its top
(height plus ymin) exceeds the baseline; every non-skipped character gets
exactly one charset entry (entry count at most 1, and membership exactly
for the non-skipped); and the power-of-two-rounded atlas cells of
distinct entries are pairwise disjoint (cells advance left-to-right and
wrap to a new row when the current row is full). -/
theorem font_bake_spec (lh baseline w : Nat) (rast : Char → Glyph)
    (alphabet : List Char) (hnd : alphabet.Nodup) :
    (∀ c ∈ alphabet,
      (¬ ((rast c).height > lh ∨
          ((rast c).height : Int) + (rast c).ymin > (baseline : Int)) ↔
        c ∈ (bake lh baseline w rast alphabet).charset.map Prod.fst)) ∧
    (∀ c : Char,
      ((bake lh baseline w rast alphabet).charset.map Prod.fst).count c ≤ 1) ∧
    (∀ p ∈ (bake lh baseline w rast alphabet).charset,
      ∀ q ∈ (bake lh baseline w rast alphabet).charset,
        p.1 ≠ q.1 → cellsDisjoint p.2 q.2) := by
  have h0 : BakeInv lh ⟨0, 0, []⟩ := ⟨List.nodup_nil, by simp, by simp⟩
  obtain ⟨hinv, hkeys⟩ :=
    bake_fold_inv lh baseline w rast alphabet ⟨0, 0, []⟩ h0 hnd (by simp)
  have hb : bake lh baseline w rast alphabet =
      List.foldl (bakeStep lh baseline w rast) ⟨0, 0, []⟩ alphabet := rfl
  simp only at hkeys
  rw [show (⟨0, 0, []⟩ : BakeState).charset.map Prod.fst = [] from rfl,
    List.nil_append] at hkeys
  refine ⟨?_, ?_, ?_⟩
  · intro c hca
    rw [hb, hkeys]
    constructor
    · intro hns
      exact List.mem_filter.mpr ⟨hca, (keptGlyph_iff lh baseline (rast c)).mpr hns⟩
    · intro hmem
      exact (keptGlyph_iff lh baseline (rast c)).mp (List.mem_filter.mp hmem).2
  · intro c
    rw [hb, hkeys]
    exact List.nodup_iff_count_le_one.mp (hnd.filter _) c
  · rw [hb]
    exact hinv.2.2

/-- Concrete instance of C8: with line height 5, baseline 4 and glyphs of
height 4, ymin -1, the characters of a two-letter alphabet are kept, each
with at most one charset entry. -/
theorem font_bake_spec_witness :
    (Char.ofNat 97) ∈
      (bake 5 4 16 (fun _ => ⟨3, 4, -1⟩) [Char.ofNat 97,
        Char.ofNat 98]).charset.map Prod.fst ∧
    ((bake 5 4 16 (fun _ => ⟨3, 4, -1⟩) [Char.ofNat 97,
        Char.ofNat 98]).charset.map Prod.fst).count (Char.ofNat 97) ≤ 1 := by
  have h := font_bake_spec 5 4 16 (fun _ => ⟨3, 4, -1⟩)
    [Char.ofNat 97, Char.ofNat 98] (by decide)
  exact ⟨(h.1 (Char.ofNat 97) (by decide)).mp (by decide), h.2.1 (Char.ofNat 97)⟩

/-- `Record` of the font registry (src/fonts/loader.rs lines 8-14); the
baked font payload is abstracted to an opaque handle (its content is
irrelevant to matching), and the f32 weight/style/size embedding behind
`Record::diff` is abstracted by the diff oracle passed to `match_font`. -/
structure FontRecord where
  family : String
  weight : Nat
  style : String
  font : Nat
deriving DecidableEq

/-- `FontLoader` (loader.rs lines 37-41); `resolution_scale` is an f32
configuration value with no effect on registry indexing. -/
structure FontLoader where
  registry : List FontRecord
  cache : String
deriving DecidableEq

/-- `FontLoader::new` (loader.rs lines 47-66): construction starts from an
empty registry, loads the built-in default Roboto font as family
"system-ui", weight 400, style "normal", and panics (`expect`) if that
load fails — so every constructed loader carries the default record at
index 0.  `f` stands for the successfully baked font payload. -/
def FontLoader.new (cache : String) (f : Nat) : FontLoader :=
  { registry := [⟨"system-ui", 400, "normal", f⟩], cache := cache }

/-- The `diff < best_diff` comparison of `FontLoader::match_font`, with
`none` as the initial `f32::INFINITY`. -/
def matchBetter (diff : ℚ) (best_diff : Option ℚ) : Bool :=
  match best_diff with
  | none => true
  | some b => decide (diff < b)

/-- The scan loop of `FontLoader::match_font` (loader.rs lines 108-124)
over the remaining records, carrying the enumerate index, the running best
index and the best distance.  The f32 distances are abstracted by the
oracle `d : Nat → ℚ` giving `record.diff(weight, style, size)` at each
registry index; the `break` on an exact match is the early return. -/
def match_go (family : String) (d : Nat → ℚ) :
    List FontRecord → Nat → Nat → Option ℚ → Nat
  | [], _, best, _ => best
  | r :: rest, index, best, best_diff =>
    if r.family = family then
      if d index = 0 then
        (if matchBetter (d index) best_diff = true then index else best)
      else
        match_go family d rest (index + 1)
          (if matchBetter (d index) best_diff = true then index else best)
          (if matchBetter (d index) best_diff = true then some (d index) else best_diff)
    else match_go family d rest (index + 1) best best_diff

/-- `FontLoader::match_font`: scan from index 0 with best 0 and infinite
best distance. -/
def FontLoader.match_font (loader : FontLoader) (family : String) (d : Nat → ℚ) : Nat :=
  match_go family d loader.registry 0 0 none

/-- `FontLoader::get_font` (loader.rs lines 126-129) indexes the registry
directly; an out-of-bounds index would panic, modelled by `none`. -/
def FontLoader.get_font (loader : FontLoader) (index : Nat) : Option FontRecord :=
  loader.registry.get? index

theorem match_go_lt (family : String) (d : Nat → ℚ) (l : List FontRecord) :
    ∀ (index best : Nat) (bd : Option ℚ) (N : Nat), best < N → index + l.length ≤ N →
      match_go family d l index best bd < N := by
  induction l with
  | nil =>
    intro _ best _ N hb _
    simpa [match_go] using hb
  | cons r rest ih =>
    intro index best bd N hb hlen
    simp only [List.length_cons] at hlen
    simp only [match_go]
    by_cases hf : r.family = family
    · rw [if_pos hf]
      by_cases h0 : d index = 0
      · rw [if_pos h0]
        by_cases hbet : matchBetter (d index) bd = true
        · rw [if_pos hbet]; omega
        · rw [if_neg hbet]; exact hb
      · rw [if_neg h0]
        apply ih
        · by_cases hbet : matchBetter (d index) bd = true
          · rw [if_pos hbet]; omega
          · rw [if_neg hbet]; exact hb
        · omega
    · rw [if_neg hf]
      apply ih
      · exact hb
      · omega

theorem match_go_no_family (family : String) (d : Nat → ℚ) (l : List FontRecord) :
    ∀ (index best : Nat) (bd : Option ℚ), (∀ r ∈ l, r.family ≠ family) →
      match_go family d l index best bd = best := by
  induction l with
  | nil =>
    intro _ _ _ _
    simp [match_go]
  | cons r rest ih =>
    intro index best bd hno
    simp only [match_go]
    rw [if_neg (hno r (by simp))]
    exact ih _ _ _ (fun s hs => hno s (by simp [hs]))

/-- Claim C10: a loader built by `FontLoader::new` has a non-empty
registry (the built-in default font is loaded during construction), and
for every family and every diff oracle (covering all weight, style and
size arguments), `match_font` returns an index smaller than the registry
length — and falls back to index 0 when no registered record's family
matches — so `get_font` applied to any `match_font` result never indexes
out of bounds. -/
theorem font_loader_match_spec :
    (∀ (cache : String) (f : Nat), 0 < (FontLoader.new cache f).registry.length) ∧
    (∀ (loader : FontLoader) (family : String) (d : Nat → ℚ),
      loader.registry ≠ [] →
      loader.match_font family d < loader.registry.length) ∧
    (∀ (loader : FontLoader) (family : String) (d : Nat → ℚ),
      (∀ r ∈ loader.registry, r.family ≠ family) →
      loader.match_font family d = 0) ∧
    (∀ (loader : FontLoader) (family : String) (d : Nat → ℚ),
      loader.registry ≠ [] →
      (loader.get_font (loader.match_font family d)).isSome = true) := by
  have hlt : ∀ (loader : FontLoader) (family : String) (d : Nat → ℚ),
      loader.registry ≠ [] →
      loader.match_font family d < loader.registry.length := by
    intro loader family d hne
    apply match_go_lt
    · exact List.length_pos.mpr hne
    · omega
  refine ⟨?_, hlt, ?_, ?_⟩
  · intro cache f
    simp [FontLoader.new]
  · intro loader family d h
    exact match_go_no_family family d loader.registry 0 0 none h
  · intro loader family d hne
    have hx := hlt loader family d hne
    rw [FontLoader.get_font, Option.isSome_iff_ne_none]
    intro hnone
    rw [List.get?_eq_none] at hnone
    omega

/-- Concrete instance of C10: on a freshly constructed loader, matching an
unknown family falls back to index 0, in bounds of the registry. -/
theorem font_loader_match_spec_witness :
    (FontLoader.new "cache" 0).match_font "nope" (fun _ => 1) = 0 ∧
    (FontLoader.new "cache" 0).match_font "nope" (fun _ => 1) <
      (FontLoader.new "cache" 0).registry.length := by
  refine ⟨font_loader_match_spec.2.2.1 _ "nope" (fun _ => 1) ?_,
    font_loader_match_spec.2.1 _ "nope" (fun _ => 1) ?_⟩
  · intro r hr
    rw [show (FontLoader.new "cache" 0).registry =
      [⟨"system-ui", 400, "normal", 0⟩] from rfl, List.mem_singleton] at hr
    subst hr
    decide
  · decide

/-- Concrete instance of C9: a full storage's rejected push and a fresh
storage's accepted push both return 0. -/
theorem storage_sentinel_ambiguous_witness :
    (((Storage.pushAll (Storage.create (0 : Nat) 1 1) [9]).2).push 7).ret = 0 ∧
    ((Storage.create (0 : Nat) 1 2).push 7).ret = 0 := by
  have h := storage_sentinel_ambiguous
    ((Storage.pushAll (Storage.create (0 : Nat) 1 1) [9]).2)
    (Storage.create (0 : Nat) 1 2) (Storage.create (0 : Nat) 1 2) 7 []
    (by decide) (by decide) (by decide) (by decide) (by decide)
  exact ⟨h.1, h.2.2.2.2.1⟩

end Motoro
